import Mathlib

/-!
Verification of the terrain-mesh / contour-extraction core of the
`abovejs` repository (`terrain/TerrainMesh.js`), shallowly embedded in Lean.

Modelling conventions:
* JavaScript numbers are modelled as exact rationals (`ℚ`).  A stored
  non-finite value (`NaN`, `±Infinity`) is modelled as `none` in an
  `Option ℚ` cell, and a `NaN` produced by a computation (the NoData
  result of `_sampleElevation`) is likewise `none`.
* `Float32Array` / `Uint32Array` buffers are modelled as `List`s; an
  out-of-range read (JavaScript `undefined`, which `Number.isFinite`
  rejects and boolean tests treat as false) is modelled by the
  neutral default of `List.getD`.
* `Math.sqrt` (used only for normal lengths, which only ever affect
  emitted coordinate *values*, never control flow or counts) is kept as
  an explicit function parameter `sqrtFn`, since its real value is
  irrational.
-/

/-- The elevation raster owned by the mesh: `width × height` row-major
samples (`none` models a stored non-finite value) plus the optional
NoData sentinel from the COG metadata (`this.noDataValue`). -/
structure Grid where
  width : ℕ
  height : ℕ
  data : List (Option ℚ)
  noDataValue : Option ℚ
  deriving Repr, DecidableEq

/-- `TerrainMesh._isNoData`: true iff the value is non-finite, `>= 1e5`,
or equal to the configured `noDataValue`. -/
def Grid.isNoData (g : Grid) (v : Option ℚ) : Bool :=
  match v with
  | none => true
  | some q => decide (100000 ≤ q) || (g.noDataValue == some q)

/-- Raw linear read `this.elevationData[idx]`; a negative or
out-of-range index yields `undefined`, modelled as `none`. -/
def Grid.cell (g : Grid) (idx : ℤ) : Option ℚ :=
  if 0 ≤ idx then g.data.getD idx.toNat none else none

/-- `TerrainMesh._getElevationAt`: the sample at integer raster
coordinates, `NaN` (here `none`) for NoData. -/
def Grid.getElevationAt (g : Grid) (x y : ℤ) : Option ℚ :=
  let v := g.cell (y * g.width + x)
  if g.isNoData v then none else v

/-- `TerrainMesh._sampleElevation` (body, with `this.elevationData`
set): bilinear interpolation of the four surrounding raster samples,
`NaN` (`none`) as soon as any of the four is NoData. -/
def Grid.sampleElevation (g : Grid) (u v : ℚ) : Option ℚ :=
  let x := u * ((g.width : ℚ) - 1)
  let y := v * ((g.height : ℚ) - 1)
  let x0 : ℤ := ⌊x⌋
  let y0 : ℤ := ⌊y⌋
  let x1 : ℤ := min (x0 + 1) ((g.width : ℤ) - 1)
  let y1 : ℤ := min (y0 + 1) ((g.height : ℤ) - 1)
  let fx := x - x0
  let fy := y - y0
  match g.getElevationAt x0 y0, g.getElevationAt x1 y0,
        g.getElevationAt x0 y1, g.getElevationAt x1 y1 with
  | some v00, some v10, some v01, some v11 =>
    some ((v00 * (1 - fx) + v10 * fx) * (1 - fy)
          + (v01 * (1 - fx) + v11 * fx) * fy)
  | _, _, _, _ => none

/-- `TerrainMesh._hasNearbyNoData`: true if any texel of the bilinear
sampling neighborhood of `(u, v)` is NoData. -/
def Grid.hasNearbyNoData (g : Grid) (u v : ℚ) : Bool :=
  let x := u * ((g.width : ℚ) - 1)
  let y := v * ((g.height : ℚ) - 1)
  let x0 : ℤ := ⌊x⌋
  let y0 : ℤ := ⌊y⌋
  let x1 : ℤ := min (x0 + 1) ((g.width : ℤ) - 1)
  let y1 : ℤ := min (y0 + 1) ((g.height : ℤ) - 1)
  g.isNoData (g.cell (y0 * g.width + x0))
    || g.isNoData (g.cell (y0 * g.width + x1))
    || g.isNoData (g.cell (y1 * g.width + x0))
    || g.isNoData (g.cell (y1 * g.width + x1))

/-- The mutable state of a `TerrainMesh` instance that the verified
operations read: the elevation grid (`none` before `createFromData`),
the elevation configuration, the vertical-scale state and the derived
model-space dimensions and contour-grid resolution. -/
structure TerrainMesh where
  grid : Option Grid
  referenceElevation : ℚ
  minDepth : ℚ
  maxDepth : ℚ
  zExaggeration : ℚ
  realWorldScale : ℚ
  modelWidth : ℚ
  modelHeight : ℚ
  gridWidth : ℕ
  gridHeight : ℕ
  deriving Repr, DecidableEq

/-- `TerrainMesh._sampleElevation` including its guard
`if (!this.elevationData) return 0;`. -/
def TerrainMesh.sampleElevation (m : TerrainMesh) (u v : ℚ) : Option ℚ :=
  match m.grid with
  | none => some 0
  | some g => g.sampleElevation u v

/-- `TerrainMesh.getHeightScale`: `zExaggeration / realWorldScale`,
falling back to `0.001` unless that ratio is finite and positive
(division by zero is `Infinity` in JS and `0` in `ℚ`; both fail the
guard). -/
def TerrainMesh.getHeightScale (m : TerrainMesh) : ℚ :=
  if 0 < m.zExaggeration / m.realWorldScale then
    m.zExaggeration / m.realWorldScale
  else 1 / 1000

/-- `TerrainMesh.getHeightAtLocalPosition`. -/
def TerrainMesh.getHeightAtLocalPosition (m : TerrainMesh) (x z : ℚ) : ℚ :=
  let halfWidth := m.modelWidth / 2
  let halfHeight := m.modelHeight / 2
  let u := (x + halfWidth) / m.modelWidth
  let v := (z + halfHeight) / m.modelHeight
  if u < 0 ∨ 1 < u ∨ v < 0 ∨ 1 < v then 0
  else
    match m.sampleElevation u v with
    | none => 0
    | some elevation => (elevation - m.referenceElevation) * m.getHeightScale

/-- Raw row-major raster read at integer coordinates `(i, j)`, used to
state the bilinear-sampling claims. -/
def rawSample (g : Grid) (i j : ℕ) : Option ℚ :=
  g.data.getD (j * g.width + i) none

/-- Modelled from the spec: the 256-entry Turbo colormap table
(`TURBO_COLORMAP` in `utils.js`) is not part of the sources here; the
spec and the repository's tests pin down only that it has exactly 256
RGB entries with every channel in `[0, 1]`.  The color theorems are
parametric in the table; this concrete stand-in satisfying the pinned
contract is used for their witnesses. -/
def TURBO_COLORMAP : List (ℚ × ℚ × ℚ) :=
  (List.range 256).map fun i : ℕ => ((i : ℚ) / 255, (i : ℚ) / 255, (i : ℚ) / 255)

/-- `TerrainMesh._getColorForDepth`, parametric in the colormap table. -/
def getColorForDepth (table : List (ℚ × ℚ × ℚ)) (depth minDepth maxDepth : ℚ) :
    ℚ × ℚ × ℚ :=
  let normalized := (depth - minDepth) / (maxDepth - minDepth)
  let clamped := max 0 (min 1 normalized)
  let inverted := 1 - clamped
  let index := inverted * ((table.length : ℚ) - 1)
  let lower := ⌊index⌋
  let upper := ⌈index⌉
  let frac := index - lower
  let cL := table.getD lower.toNat (0, 0, 0)
  let cU := table.getD upper.toNat (0, 0, 0)
  (cL.1 + (cU.1 - cL.1) * frac,
   cL.2.1 + (cU.2.1 - cL.2.1) * frac,
   cL.2.2 + (cU.2.2 - cL.2.2) * frac)

/-- The per-vertex body of `TerrainMesh._computeVertexColorsAsync`: the
color assigned to a vertex with UV coordinate `uv` (the source samples
elevation at the V-flipped UV). -/
def vertexColor (m : TerrainMesh) (table : List (ℚ × ℚ × ℚ)) (uv : ℚ × ℚ) :
    ℚ × ℚ × ℚ :=
  match m.sampleElevation uv.1 (1 - uv.2) with
  | none => (1/2, 1/2, 1/2)
  | some elevation =>
    if m.referenceElevation ≤ elevation then (1/2, 1/2, 1/2)
    else getColorForDepth table (m.referenceElevation - elevation) m.minDepth m.maxDepth

/-- Vertex pre-classification of `_filterAboveWaterTrianglesAsync`:
`isNoData[i]` is set when `_hasNearbyNoData` holds at the V-flipped UV
or the bilinear sample there is non-finite. -/
def vertexIsNoData (g : Grid) (uv : ℚ × ℚ) : Bool :=
  if g.hasNearbyNoData uv.1 (1 - uv.2) then true
  else
    match g.sampleElevation uv.1 (1 - uv.2) with
    | none => true
    | some _ => false

/-- Vertex pre-classification of `_filterAboveWaterTrianglesAsync`:
`isBelowRef[i]` is set when the vertex is not NoData and its sample is
strictly below the reference elevation. -/
def vertexIsBelowRef (g : Grid) (referenceElevation : ℚ) (uv : ℚ × ℚ) : Bool :=
  if vertexIsNoData g uv then false
  else
    match g.sampleElevation uv.1 (1 - uv.2) with
    | none => false
    | some elevation => decide (elevation < referenceElevation)

/-- The triangle loop of `_filterAboveWaterTrianglesAsync`: drop a
triangle if any vertex is NoData, keep it if some vertex is below the
reference, drop it otherwise. -/
def filterTriangles (isNoData isBelowRef : ℕ → Bool) : List ℕ → List ℕ
  | i0 :: i1 :: i2 :: rest =>
    (if isNoData i0 || isNoData i1 || isNoData i2 then []
     else if isBelowRef i0 || isBelowRef i1 || isBelowRef i2 then [i0, i1, i2]
     else []) ++ filterTriangles isNoData isBelowRef rest
  | _ => []

/-- `TerrainMesh._filterAboveWaterTrianglesAsync`: classification of
every vertex followed by the triangle loop over the original index
buffer. -/
def filterAboveWaterTriangles (g : Grid) (referenceElevation : ℚ)
    (uvs : List (ℚ × ℚ)) (originalIndices : List ℕ) : List ℕ :=
  filterTriangles
    (fun i => vertexIsNoData g (uvs.getD i (0, 0)))
    (fun i => vertexIsBelowRef g referenceElevation (uvs.getD i (0, 0)))
    originalIndices

/-- The triangles (index triples) of a flat index buffer, in order. -/
def trianglesOf : List ℕ → List (ℕ × ℕ × ℕ)
  | i0 :: i1 :: i2 :: rest => (i0, i1, i2) :: trianglesOf rest
  | _ => []

/-- `MS_EDGE_TABLE`: the 16-case marching-squares edge lookup table;
`none` marks the two saddle cases resolved at runtime. -/
def MS_EDGE_TABLE : List (Option (List (ℕ × ℕ))) :=
  [some [], some [(3, 2)], some [(2, 1)], some [(3, 1)], some [(0, 1)], none,
   some [(0, 2)], some [(3, 0)], some [(0, 3)], some [(0, 2)], none, some [(0, 1)],
   some [(3, 1)], some [(2, 1)], some [(3, 2)], some []]

/-- The 4-bit marching-squares case code of `generateContours`:
`(tl >= t ? 8 : 0) | (tr >= t ? 4 : 0) | (br >= t ? 2 : 0) | (bl >= t ? 1 : 0)`. -/
def msCaseBits (threshold tl tr br bl : ℚ) : ℕ :=
  (if threshold ≤ tl then 8 else 0) ||| (if threshold ≤ tr then 4 else 0)
    ||| (if threshold ≤ br then 2 else 0) ||| (if threshold ≤ bl then 1 else 0)

/-- The edge pairs emitted by `generateContours` for one cell whose four
corners are all finite: nothing for codes 0/15, center-average saddle
resolution for codes 5/10, the fixed table otherwise. -/
def msCellEdges (threshold tl tr br bl : ℚ) : List (ℕ × ℕ) :=
  let caseBits := msCaseBits threshold tl tr br bl
  if caseBits = 0 ∨ caseBits = 15 then []
  else if caseBits = 5 then
    if threshold ≤ (tl + tr + br + bl) * (1/4) then [(3, 0), (2, 1)] else [(0, 1), (3, 2)]
  else if caseBits = 10 then
    if threshold ≤ (tl + tr + br + bl) * (1/4) then [(0, 1), (3, 2)] else [(3, 0), (2, 1)]
  else (MS_EDGE_TABLE.getD caseBits none).getD []

/-- `TerrainMesh._interpolateEdge`. -/
def interpolateEdge (edge : ℕ) (threshold tl tr br bl x0 x1 z0 z1 : ℚ) :
    ℚ × ℚ × ℚ :=
  match edge with
  | 0 => let t := (threshold - tl) / (tr - tl); (x0 + t * (x1 - x0), z0, t)
  | 1 => let t := (threshold - tr) / (br - tr); (x1, z0 + t * (z1 - z0), t)
  | 2 => let t := (threshold - bl) / (br - bl); (x0 + t * (x1 - x0), z1, t)
  | 3 => let t := (threshold - tl) / (bl - tl); (x0, z0 + t * (z1 - z0), t)
  | _ => (0, 0, 0)

/-- The threshold loop of `generateContours`:
`for (depth = interval; depth <= maxContourDepth; depth += interval)`
keeping `referenceElevation - depth` when `>= minElevation`.  The loop
is fuel-indexed; `contourThresholds` supplies fuel exceeding the
iteration count of every terminating (positive-interval) run. -/
def contourThresholdsGo (referenceElevation minElevation maxContourDepth interval : ℚ) :
    ℕ → ℚ → List ℚ
  | 0, _ => []
  | fuel + 1, depth =>
    if depth ≤ maxContourDepth then
      (if minElevation ≤ referenceElevation - depth then [referenceElevation - depth] else [])
        ++ contourThresholdsGo referenceElevation minElevation maxContourDepth interval fuel
            (depth + interval)
    else []

/-- The contour-threshold list of `generateContours`, with
`maxContourDepth = Math.round(referenceElevation - minElevation)`. -/
def contourThresholds (referenceElevation minElevation interval : ℚ) : List ℚ :=
  let maxContourDepth : ℚ := ((round (referenceElevation - minElevation) : ℤ) : ℚ)
  contourThresholdsGo referenceElevation minElevation maxContourDepth interval
    ((max 0 ⌈maxContourDepth / interval⌉).toNat + 1) interval

/-- Squared perpendicular distance of `p` from the chord
`first → last`, with the source's degenerate-chord fallback
(`lineLenSq < 1e-20` measures from `first`). -/
def perpDistSq (first lastPt p : ℚ × ℚ) : ℚ :=
  let dx := lastPt.1 - first.1
  let dz := lastPt.2 - first.2
  let lineLenSq := dx * dx + dz * dz
  let px := p.1 - first.1
  let pz := p.2 - first.2
  if lineLenSq < 1 / 100000000000000000000 then px * px + pz * pz
  else
    let t := (px * dx + pz * dz) * (1 / lineLenSq)
    let ex := px - t * dx
    let ez := pz - t * dz
    ex * ex + ez * ez

/-- The max-distance scan of `_simplifyPolyline2D` over a list of
interior indices, updating `(maxDistSq, maxIdx)` on strict increase. -/
def dpScanGo (first lastPt : ℚ × ℚ) (points : List (ℚ × ℚ)) (l : List ℕ)
    (acc : ℚ × ℕ) : ℚ × ℕ :=
  l.foldl (fun acc i =>
    let dSq := perpDistSq first lastPt (points.getD i (0, 0))
    if acc.1 < dSq then (dSq, i) else acc) acc

/-- The max-distance scan of `_simplifyPolyline2D`: interior indices
`i = 1 .. length-2`, starting from `(maxDistSq, maxIdx) = (0, 0)`. -/
def dpScan (points : List (ℚ × ℚ)) : ℚ × ℕ :=
  dpScanGo (points.headD (0, 0)) (points.getLastD (0, 0)) points
    (List.range' 1 (points.length - 2)) (0, 0)

/-- Twice the signed area of the triangle `a b c`; zero exactly when
the three points are collinear.  Used to state when Douglas-Peucker at
tolerance `0` is the identity. -/
def cross2 (a b c : ℚ × ℚ) : ℚ :=
  (b.1 - a.1) * (c.2 - a.2) - (b.2 - a.2) * (c.1 - a.1)

/-- `TerrainMesh._simplifyPolyline2D`, fuel-indexed: recursion on
`points.slice(0, maxIdx+1)` and `points.slice(maxIdx)`, both strictly
shorter, so fuel `points.length` never runs out (`simplifyAux_fuel`). -/
def simplifyAux : ℕ → List (ℚ × ℚ) → ℚ → List (ℚ × ℚ)
  | 0, points, _ => points
  | fuel + 1, points, tolerance =>
    if points.length ≤ 2 then points
    else
      let tolSq := tolerance * tolerance
      let scan := dpScan points
      if tolSq < scan.1 then
        let left := simplifyAux fuel (points.take (scan.2 + 1)) tolerance
        let right := simplifyAux fuel (points.drop scan.2) tolerance
        left.dropLast ++ right
      else [points.headD (0, 0), points.getLastD (0, 0)]

/-- `TerrainMesh._simplifyPolyline2D` (Douglas-Peucker in the XZ
plane). -/
def simplifyPolyline2D (points : List (ℚ × ℚ)) (tolerance : ℚ) : List (ℚ × ℚ) :=
  simplifyAux points.length points tolerance

/-- First endpoint `(ax, az)` of raw segment `i` in a flat
6-floats-per-segment buffer. -/
def segEndA (data : List ℚ) (i : ℕ) : ℚ × ℚ :=
  (data.getD (i * 6) 0, data.getD (i * 6 + 2) 0)

/-- Second endpoint `(bx, bz)` of raw segment `i`. -/
def segEndB (data : List ℚ) (i : ℕ) : ℚ × ℚ :=
  (data.getD (i * 6 + 3) 0, data.getD (i * 6 + 5) 0)

/-- The adjacency list of `_chainAndSimplifySegments` at one endpoint
key: entries `(segment, whichEnd)` in segment order, each segment
contributing its A-entry before its B-entry (JS `Map` + `push`
insertion order). -/
def chainAdj (data : List ℚ) (segCount : ℕ) (k : ℚ × ℚ) : List (ℕ × Bool) :=
  (List.range segCount).flatMap fun i =>
    (if segEndA data i = k then [(i, false)] else [])
      ++ (if segEndB data i = k then [(i, true)] else [])

/-- One endpoint-following walk of `_chainAndSimplifySegments`: follow
the first unused neighbor at the current key, mark it used, emit its
far endpoint, repeat.  Each step marks a fresh segment used, so fuel
`segCount` never runs out. -/
def chainWalk (data : List ℚ) (segCount : ℕ) :
    ℕ → List Bool → (ℚ × ℚ) → List (ℚ × ℚ) × List Bool
  | 0, used, _ => ([], used)
  | fuel + 1, used, curKey =>
    match (chainAdj data segCount curKey).find? (fun n => !used.getD n.1 false) with
    | none => ([], used)
    | some n =>
      let used1 := used.set n.1 true
      let np := if n.2 then segEndA data n.1 else segEndB data n.1
      let rest := chainWalk data segCount fuel used1 np
      (np :: rest.1, rest.2)

/-- Re-emission of a simplified polyline as consecutive segment pairs
(`for j: push(p[j], contourY, p[j+1], contourY, ...)`). -/
def emitPolyline (contourY : ℚ) : List (ℚ × ℚ) → List ℚ
  | p0 :: p1 :: rest =>
    [p0.1, contourY, p0.2, p1.1, contourY, p1.2] ++ emitPolyline contourY (p1 :: rest)
  | _ => []

/-- `TerrainMesh._chainAndSimplifySegments`. -/
def chainAndSimplifySegments (data : List ℚ) (contourY tolerance : ℚ) : List ℚ :=
  let segCount := data.length / 6
  if segCount = 0 then data
  else
    ((List.range segCount).foldl (fun st i =>
      if st.1.getD i false then st
      else
        let used1 := st.1.set i true
        let a := segEndA data i
        let b := segEndB data i
        let fwd := chainWalk data segCount segCount used1 b
        let bwd := chainWalk data segCount segCount fwd.2 a
        let poly := bwd.1.reverse ++ [a, b] ++ fwd.1
        let simplified := simplifyPolyline2D poly tolerance
        (bwd.2, st.2 ++ emitPolyline contourY simplified))
      (List.replicate segCount false, [])).2

/-- The per-vertex surface normals precomputed by `generateContours`
(central differences with NaN-neighbor fallback to the center value and
a flat up normal at NaN vertices).  `sqrtFn` stands for the host
`Math.sqrt`; its values only scale emitted coordinates, never counts or
control flow. -/
def computeVertexNormals (sqrtFn : ℚ → ℚ) (gridData : List (Option ℚ)) (gw gh : ℕ)
    (cellW cellH heightScale : ℚ) : List (ℚ × ℚ × ℚ) :=
  (List.range gh).flatMap fun gy =>
    (List.range gw).map fun gx =>
      match gridData.getD (gy * gw + gx) none with
      | none => (0, 1, 0)
      | some c =>
        let l := if 0 < gx then (gridData.getD (gy * gw + gx - 1) none).getD c else c
        let r := if gx < gw - 1 then (gridData.getD (gy * gw + gx + 1) none).getD c else c
        let up := if 0 < gy then (gridData.getD ((gy - 1) * gw + gx) none).getD c else c
        let dn := if gy < gh - 1 then (gridData.getD ((gy + 1) * gw + gx) none).getD c else c
        let dx : ℚ := if 0 < gx ∧ gx < gw - 1 then 2 else 1
        let dz : ℚ := if 0 < gy ∧ gy < gh - 1 then 2 else 1
        let gradX := (r - l) / (dx * cellW) * heightScale
        let gradZ := (dn - up) / (dz * cellH) * heightScale
        let nLen := sqrtFn (gradX * gradX + 1 + gradZ * gradZ)
        (-gradX / nLen, 1 / nLen, -gradZ / nLen)

/-- Linear interpolation of two normals, as in the source's
component-wise `n0 + t * (n1 - n0)`. -/
def lerpV3 (a b : ℚ × ℚ × ℚ) (t : ℚ) : ℚ × ℚ × ℚ :=
  (a.1 + t * (b.1 - a.1), a.2.1 + t * (b.2.1 - a.2.1), a.2.2 + t * (b.2.2 - a.2.2))

/-- The two per-vertex normals bounding marching-squares edge `e`
(edge 0: tl→tr, 1: tr→br, 2: bl→br, 3: tl→bl). -/
def edgeNormalEnds (e : ℕ) (ntl ntr nbr nbl : ℚ × ℚ × ℚ) :
    (ℚ × ℚ × ℚ) × (ℚ × ℚ × ℚ) :=
  match e with
  | 0 => (ntl, ntr)
  | 1 => (ntr, nbr)
  | 2 => (nbl, nbr)
  | 3 => (ntl, nbl)
  | _ => ((0, 0, 0), (0, 0, 0))

/-- The values pushed for one marching-squares cell of
`generateContours`: skip if any corner is NaN, otherwise 6 floats per
selected edge pair (normal-offset endpoint positions). -/
def msCellChunk (gridData : List (Option ℚ)) (vertexNormals : List (ℚ × ℚ × ℚ))
    (modelX modelZ : List ℚ) (gw : ℕ) (threshold contourY heightOffset : ℚ)
    (gx gy : ℕ) : List ℚ :=
  match gridData.getD (gy * gw + gx) none, gridData.getD (gy * gw + gx + 1) none,
        gridData.getD ((gy + 1) * gw + gx + 1) none,
        gridData.getD ((gy + 1) * gw + gx) none with
  | some tl, some tr, some br, some bl =>
    let edges := msCellEdges threshold tl tr br bl
    let x0 := modelX.getD gx 0
    let x1 := modelX.getD (gx + 1) 0
    let z0 := modelZ.getD gy 0
    let z1 := modelZ.getD (gy + 1) 0
    let ntl := vertexNormals.getD (gy * gw + gx) (0, 0, 0)
    let ntr := vertexNormals.getD (gy * gw + gx + 1) (0, 0, 0)
    let nbr := vertexNormals.getD ((gy + 1) * gw + gx + 1) (0, 0, 0)
    let nbl := vertexNormals.getD ((gy + 1) * gw + gx) (0, 0, 0)
    edges.flatMap fun e =>
      let p0 := interpolateEdge e.1 threshold tl tr br bl x0 x1 z0 z1
      let p1 := interpolateEdge e.2 threshold tl tr br bl x0 x1 z0 z1
      let n0e := edgeNormalEnds e.1 ntl ntr nbr nbl
      let n1e := edgeNormalEnds e.2 ntl ntr nbr nbl
      let n0 := lerpV3 n0e.1 n0e.2 p0.2.2
      let n1 := lerpV3 n1e.1 n1e.2 p1.2.2
      [p0.1 + n0.1 * heightOffset, contourY + n0.2.1 * heightOffset,
       p0.2.1 + n0.2.2 * heightOffset,
       p1.1 + n1.1 * heightOffset, contourY + n1.2.1 * heightOffset,
       p1.2.1 + n1.2.2 * heightOffset]
  | _, _, _, _ => []

/-- The `gridWidth × gridHeight` sampling grid of `generateContours`. -/
def contourGridData (g : Grid) (gw gh : ℕ) : List (Option ℚ) :=
  (List.range gh).flatMap fun gy : ℕ =>
    (List.range gw).map fun gx : ℕ =>
      g.sampleElevation ((gx : ℚ) / ((gw : ℚ) - 1)) ((gy : ℚ) / ((gh : ℚ) - 1))

/-- The model-space X coordinates of the contour sampling grid. -/
def contourModelX (modelWidth : ℚ) (gw : ℕ) : List ℚ :=
  (List.range gw).map fun gx : ℕ =>
    ((gx : ℚ) / ((gw : ℚ) - 1)) * modelWidth - modelWidth / 2

/-- The model-space Z coordinates of the contour sampling grid. -/
def contourModelZ (modelHeight : ℚ) (gh : ℕ) : List ℚ :=
  (List.range gh).map fun gy : ℕ =>
    ((gy : ℚ) / ((gh : ℚ) - 1)) * modelHeight - modelHeight / 2

/-- The `contourY` base height of one threshold. -/
def contourYFor (m : TerrainMesh) (referenceElevation threshold : ℚ) : ℚ :=
  (threshold - referenceElevation) * m.getHeightScale

/-- The raw `chunkData` emitted by one threshold of
`generateContours`: cell loop over the sampling grid. -/
def contourRawChunk (sqrtFn : ℚ → ℚ) (m : TerrainMesh) (g : Grid)
    (referenceElevation heightOffset threshold : ℚ) : List ℚ :=
  let gw := m.gridWidth
  let gh := m.gridHeight
  let heightScale := m.getHeightScale
  let gridData := contourGridData g gw gh
  let vertexNormals := computeVertexNormals sqrtFn gridData gw gh
    (m.modelWidth / ((gw : ℚ) - 1)) (m.modelHeight / ((gh : ℚ) - 1)) heightScale
  let contourY := (threshold - referenceElevation) * heightScale
  (List.range (gh - 1)).flatMap fun gy =>
    (List.range (gw - 1)).flatMap fun gx =>
      msCellChunk gridData vertexNormals (contourModelX m.modelWidth gw)
        (contourModelZ m.modelHeight gh) gw threshold contourY heightOffset gx gy

/-- `GenerationResult`: `{ segments, vertexCount, aborted }`. -/
structure ContourResult where
  segments : List ℚ
  vertexCount : ℕ
  aborted : Bool
  deriving Repr, DecidableEq

/-- The threshold loop of `generateContours`: per threshold, push the
(possibly chained-and-simplified) chunk when the raw chunk is nonempty,
then abort as soon as the running vertex total exceeds a positive
`maxVertices`. -/
def contourLoop (chunkOf : ℚ → List ℚ) (simplifyOf : ℚ → List ℚ → List ℚ)
    (simplifyTolerance : ℚ) (maxVertices : ℕ) :
    List ℚ → List (List ℚ) → ℕ → List (List ℚ) × ℕ × Bool
  | [], chunks, total => (chunks, total, false)
  | threshold :: rest, chunks, total =>
    let chunkData := chunkOf threshold
    let st :=
      if 0 < chunkData.length then
        if 0 < simplifyTolerance then
          let simplified := simplifyOf threshold chunkData
          (chunks ++ [simplified], total + simplified.length / 3)
        else (chunks ++ [chunkData], total + chunkData.length / 3)
      else (chunks, total)
    if 0 < maxVertices ∧ maxVertices < st.2 then (st.1, st.2, true)
    else contourLoop chunkOf simplifyOf simplifyTolerance maxVertices rest st.1 st.2

/-- The vertex count one threshold contributes to the running total. -/
def perThresholdVerts (chunkOf : ℚ → List ℚ) (simplifyOf : ℚ → List ℚ → List ℚ)
    (simplifyTolerance : ℚ) (threshold : ℚ) : ℕ :=
  let chunkData := chunkOf threshold
  if 0 < chunkData.length then
    if 0 < simplifyTolerance then (simplifyOf threshold chunkData).length / 3
    else chunkData.length / 3
  else 0

/-- Running vertex total after the first `n` thresholds. -/
def prefixVertexTotal (chunkOf : ℚ → List ℚ) (simplifyOf : ℚ → List ℚ → List ℚ)
    (simplifyTolerance : ℚ) (thresholds : List ℚ) (n : ℕ) : ℕ :=
  ((thresholds.take n).map (perThresholdVerts chunkOf simplifyOf simplifyTolerance)).sum

/-- `TerrainMesh.generateContours`.  Returns `none` for the source's
`return null` guard; the empty-threshold early return carries no
`aborted` field in the source (JS `undefined`, falsy), modelled as
`false`. -/
def generateContours (sqrtFn : ℚ → ℚ) (m : TerrainMesh)
    (referenceElevation minElevation interval heightOffset : ℚ)
    (simplifyTolerance : ℚ) (maxVertices : ℕ) : Option ContourResult :=
  match m.grid with
  | none => none
  | some g =>
    if m.gridWidth = 0 ∨ m.gridHeight = 0 then none
    else
      let thresholds := contourThresholds referenceElevation minElevation interval
      if thresholds.length = 0 then some ⟨[], 0, false⟩
      else
        let res := contourLoop
          (contourRawChunk sqrtFn m g referenceElevation heightOffset)
          (fun threshold chunkData =>
            chainAndSimplifySegments chunkData
              (contourYFor m referenceElevation threshold) simplifyTolerance)
          simplifyTolerance maxVertices thresholds [] 0
        if res.2.2 then some ⟨[], res.2.1, true⟩
        else some ⟨res.1.flatten, res.2.1, false⟩

lemma Grid.isNoData_none (g : Grid) : g.isNoData none = true := rfl

lemma Grid.getElevationAt_eq_none (g : Grid) (x y : ℤ) :
    g.getElevationAt x y = none ↔
      g.isNoData (g.cell (y * g.width + x)) = true := by
  unfold Grid.getElevationAt
  rcases hc : g.cell (y * g.width + x) with _ | q
  · simp [hc, Grid.isNoData_none]
  · by_cases hn : g.isNoData (some q) = true <;> simp [hc, hn]

/-- **C9.** With the elevation grid set and `(u,v) ∈ [0,1]²`,
`_hasNearbyNoData(u, v)` holds exactly when `_sampleElevation(u, v)`
returns NaN: both examine the same four surrounding raster samples with
the same NoData test. -/
theorem hasNearbyNoData_iff_sample_nan (g : Grid) (u v : ℚ)
    (hu0 : 0 ≤ u) (hu1 : u ≤ 1) (hv0 : 0 ≤ v) (hv1 : v ≤ 1) :
    g.hasNearbyNoData u v = true ↔ g.sampleElevation u v = none := by
  clear hu0 hu1 hv0 hv1
  unfold Grid.hasNearbyNoData Grid.sampleElevation
  simp only [Bool.or_eq_true, ← Grid.getElevationAt_eq_none]
  rcases h00 : g.getElevationAt ⌊u * ((g.width : ℚ) - 1)⌋ ⌊v * ((g.height : ℚ) - 1)⌋ with _ | q00 <;>
  rcases h10 : g.getElevationAt (min (⌊u * ((g.width : ℚ) - 1)⌋ + 1) ((g.width : ℤ) - 1)) ⌊v * ((g.height : ℚ) - 1)⌋ with _ | q10 <;>
  rcases h01 : g.getElevationAt ⌊u * ((g.width : ℚ) - 1)⌋ (min (⌊v * ((g.height : ℚ) - 1)⌋ + 1) ((g.height : ℤ) - 1)) with _ | q01 <;>
  rcases h11 : g.getElevationAt (min (⌊u * ((g.width : ℚ) - 1)⌋ + 1) ((g.width : ℤ) - 1)) (min (⌊v * ((g.height : ℚ) - 1)⌋ + 1) ((g.height : ℤ) - 1)) with _ | q11 <;>
  simp_all

/-- Witness for C9 at a concrete grid and sampling point. -/
theorem hasNearbyNoData_iff_sample_nan_witness :
    let g : Grid := ⟨2, 2, [some 1, some 2, none, some 4], none⟩
    (g.hasNearbyNoData (1/2) (1/2) = true ↔ g.sampleElevation (1/2) (1/2) = none) ∧
      g.sampleElevation (1/2) (1/2) = none :=
  ⟨hasNearbyNoData_iff_sample_nan _ (1/2) (1/2) (by norm_num) (by norm_num)
      (by norm_num) (by norm_num), by with_unfolding_all decide⟩

/-- **C8 counterexample.** Calling `_sampleElevation` before the
elevation grid is set does not fail loudly: it silently returns
elevation `0` — exactly the silently-zeroed output the claim rules
out. -/
theorem sampleElevation_ungated_counterexample :
    TerrainMesh.sampleElevation ⟨none, 157, 0, 31, 4, 1, 1, 1, 0, 0⟩ (1/2) (1/2)
      = some 0 := rfl

/-- **C8 (amended).** With the elevation grid unset, `generateContours`
returns `null` immediately (no zeroed geometry), but `_sampleElevation`
silently returns elevation `0` rather than failing. -/
theorem ungated_mesh_operations (m : TerrainMesh) (hm : m.grid = none)
    (u v : ℚ) (sqrtFn : ℚ → ℚ)
    (referenceElevation minElevation interval heightOffset tol : ℚ) (maxV : ℕ) :
    m.sampleElevation u v = some 0 ∧
      generateContours sqrtFn m referenceElevation minElevation interval
        heightOffset tol maxV = none := by
  unfold TerrainMesh.sampleElevation generateContours
  rw [hm]
  exact ⟨rfl, rfl⟩

/-- Witness for C8 at a concrete ungated mesh. -/
theorem ungated_mesh_operations_witness :
    TerrainMesh.sampleElevation ⟨none, 157, 0, 31, 4, 1, 1, 1, 0, 0⟩ 0 0 = some 0 ∧
      generateContours (fun q => q) ⟨none, 157, 0, 31, 4, 1, 1, 1, 0, 0⟩
        100 0 10 0 0 0 = none :=
  ungated_mesh_operations _ rfl 0 0 (fun q => q) 100 0 10 0 0 0

/-- **C10.** `getHeightAtLocalPosition` returns `0` whenever the mapped
UV falls outside `[0,1]²` or the bilinear sample there is NaN;
otherwise it returns `(elevation − referenceElevation) · heightScale`
with `heightScale = zExaggeration / realWorldScale` (positive here, so
the `getHeightScale` fallback is not taken).  The result is always a
plain number — NoData is indistinguishable from height exactly `0`. -/
theorem getHeightAtLocalPosition_spec (m : TerrainMesh) (x z u v : ℚ)
    (hscale : 0 < m.zExaggeration / m.realWorldScale)
    (hu : u = (x + m.modelWidth / 2) / m.modelWidth)
    (hv : v = (z + m.modelHeight / 2) / m.modelHeight) :
    ((u < 0 ∨ 1 < u ∨ v < 0 ∨ 1 < v) → m.getHeightAtLocalPosition x z = 0) ∧
    (¬(u < 0 ∨ 1 < u ∨ v < 0 ∨ 1 < v) → m.sampleElevation u v = none →
      m.getHeightAtLocalPosition x z = 0) ∧
    (∀ e : ℚ, ¬(u < 0 ∨ 1 < u ∨ v < 0 ∨ 1 < v) → m.sampleElevation u v = some e →
      m.getHeightAtLocalPosition x z =
        (e - m.referenceElevation) * (m.zExaggeration / m.realWorldScale)) := by
  have hhs : m.getHeightScale = m.zExaggeration / m.realWorldScale := by
    unfold TerrainMesh.getHeightScale
    rw [if_pos hscale]
  subst hu hv
  unfold TerrainMesh.getHeightAtLocalPosition
  refine ⟨fun hout => ?_, fun hin hnone => ?_, fun e hin hsome => ?_⟩
  · simp only [if_pos hout]
  · simp only [if_neg hin, hnone]
  · simp only [if_neg hin, hsome, hhs]

/-- Witness for C10: an in-range query over a concrete grid. -/
theorem getHeightAtLocalPosition_spec_witness :
    TerrainMesh.getHeightAtLocalPosition
        ⟨some ⟨2, 2, [some 1, some 2, some 3, some 4], none⟩, 10, 0, 31, 4, 2, 1, 1, 2, 2⟩
        0 0 = (5/2 - 10) * (4 / 2) := by
  have h := getHeightAtLocalPosition_spec
    ⟨some ⟨2, 2, [some 1, some 2, some 3, some 4], none⟩, 10, 0, 31, 4, 2, 1, 1, 2, 2⟩
    0 0 (1/2) (1/2) (by norm_num) (by norm_num) (by norm_num)
  exact h.2.2 (5/2) (by norm_num) (by with_unfolding_all decide)

/-- **C4 counterexample.** For the scenario
`referenceElevation = 100`, `minElevation = 0`, `interval = 10` the
threshold derivation yields ten thresholds, not nine: `depth` also
reaches `100`, whose candidate elevation `0` passes `>= minElevation`
and is kept. -/
theorem contourThresholds_ramp_counterexample :
    (contourThresholds 100 0 10).length ≠ 9 ∧
      (0 : ℚ) ∈ contourThresholds 100 0 10 := by
  with_unfolding_all decide

/-- **C4 (amended).** For `referenceElevation = 100`,
`minElevation = 0`, `interval = 10` the derivation produces exactly ten
thresholds, the elevation values `90, 80, ..., 10, 0` in that order. -/
theorem contourThresholds_ramp :
    contourThresholds 100 0 10 = [90, 80, 70, 60, 50, 40, 30, 20, 10, 0] := by
  with_unfolding_all decide

lemma Grid.isNoData_eq_false (g : Grid) (w : Option ℚ)
    (h : g.isNoData w = false) : ∃ q, w = some q := by
  cases w with
  | none => simp [Grid.isNoData] at h
  | some q => exact ⟨q, rfl⟩

lemma Grid.cell_natCast (g : Grid) (i j : ℕ) :
    g.cell ((j : ℤ) * (g.width : ℤ) + (i : ℤ)) = rawSample g i j := by
  have h1 : (j : ℤ) * (g.width : ℤ) + (i : ℤ) = ((j * g.width + i : ℕ) : ℤ) := by
    push_cast; ring
  unfold Grid.cell rawSample
  rw [h1, if_pos (Int.natCast_nonneg _), Int.toNat_natCast]

lemma Grid.getElevationAt_natCast (g : Grid) (i j : ℕ) :
    g.getElevationAt (i : ℤ) (j : ℤ) =
      if g.isNoData (rawSample g i j) then none else rawSample g i j := by
  unfold Grid.getElevationAt
  rw [Grid.cell_natCast]

/-- **C1.** With the grid set and `(u,v) ∈ [0,1]²`, the bilinear sampler
maps `(u,v)` to fractional raster coordinates `(u·(w-1), v·(h-1))` and
reads the four surrounding integer-grid samples (floor/floor+1, clamped
to the last row/column): if any of the four is NoData per `_isNoData`
the result is NaN, otherwise the standard bilinear interpolation of the
four samples with fractional parts `(fx, fy)`. -/
theorem sampleElevation_bilinear (g : Grid) (u v : ℚ)
    (hu0 : 0 ≤ u) (hu1 : u ≤ 1) (hv0 : 0 ≤ v) (hv1 : v ≤ 1)
    (hw : 1 ≤ g.width) (hh : 1 ≤ g.height)
    (x0 y0 x1 y1 : ℕ) (fx fy : ℚ)
    (hx0 : (x0 : ℤ) = ⌊u * ((g.width : ℚ) - 1)⌋)
    (hy0 : (y0 : ℤ) = ⌊v * ((g.height : ℚ) - 1)⌋)
    (hx1 : x1 = min (x0 + 1) (g.width - 1))
    (hy1 : y1 = min (y0 + 1) (g.height - 1))
    (hfx : fx = u * ((g.width : ℚ) - 1) - (x0 : ℚ))
    (hfy : fy = v * ((g.height : ℚ) - 1) - (y0 : ℚ)) :
    ((g.isNoData (rawSample g x0 y0) || g.isNoData (rawSample g x1 y0)
        || g.isNoData (rawSample g x0 y1) || g.isNoData (rawSample g x1 y1)) = true →
      g.sampleElevation u v = none) ∧
    ((g.isNoData (rawSample g x0 y0) || g.isNoData (rawSample g x1 y0)
        || g.isNoData (rawSample g x0 y1) || g.isNoData (rawSample g x1 y1)) = false →
      ∃ q00 q10 q01 q11 : ℚ,
        rawSample g x0 y0 = some q00 ∧ rawSample g x1 y0 = some q10 ∧
        rawSample g x0 y1 = some q01 ∧ rawSample g x1 y1 = some q11 ∧
        g.sampleElevation u v =
          some (q00 * (1 - fx) * (1 - fy) + q10 * fx * (1 - fy)
                + q01 * (1 - fx) * fy + q11 * fx * fy)) := by
  have hminx : min ((x0 : ℤ) + 1) ((g.width : ℤ) - 1) = ((x1 : ℕ) : ℤ) := by
    subst hx1; omega
  have hminy : min ((y0 : ℤ) + 1) ((g.height : ℤ) - 1) = ((y1 : ℕ) : ℤ) := by
    subst hy1; omega
  constructor
  · intro hor
    rw [← hasNearbyNoData_iff_sample_nan g u v hu0 hu1 hv0 hv1]
    simp only [Grid.hasNearbyNoData]
    rw [← hx0, ← hy0, hminx, hminy, Grid.cell_natCast, Grid.cell_natCast,
      Grid.cell_natCast, Grid.cell_natCast]
    exact hor
  · intro hne
    simp only [Bool.or_eq_false_iff] at hne
    obtain ⟨⟨⟨h00, h10⟩, h01⟩, h11⟩ := hne
    obtain ⟨q00, e00⟩ := g.isNoData_eq_false _ h00
    obtain ⟨q10, e10⟩ := g.isNoData_eq_false _ h10
    obtain ⟨q01, e01⟩ := g.isNoData_eq_false _ h01
    obtain ⟨q11, e11⟩ := g.isNoData_eq_false _ h11
    have E00 : g.getElevationAt ((x0 : ℕ) : ℤ) ((y0 : ℕ) : ℤ) = some q00 := by
      rw [Grid.getElevationAt_natCast, h00]
      simp [e00]
    have E10 : g.getElevationAt ((x1 : ℕ) : ℤ) ((y0 : ℕ) : ℤ) = some q10 := by
      rw [Grid.getElevationAt_natCast, h10]
      simp [e10]
    have E01 : g.getElevationAt ((x0 : ℕ) : ℤ) ((y1 : ℕ) : ℤ) = some q01 := by
      rw [Grid.getElevationAt_natCast, h01]
      simp [e01]
    have E11 : g.getElevationAt ((x1 : ℕ) : ℤ) ((y1 : ℕ) : ℤ) = some q11 := by
      rw [Grid.getElevationAt_natCast, h11]
      simp [e11]
    refine ⟨q00, q10, q01, q11, e00, e10, e01, e11, ?_⟩
    simp only [Grid.sampleElevation]
    rw [← hx0, ← hy0, hminx, hminy, E00, E10, E01, E11]
    subst hfx hfy
    refine congrArg some ?_
    push_cast
    ring

/-- Witness for C1: bilinear interpolation at the center of a concrete
all-valid 2×2 grid. -/
theorem sampleElevation_bilinear_witness :
    Grid.sampleElevation ⟨2, 2, [some 1, some 2, some 3, some 4], none⟩
      (1/2) (1/2) = some (5/2) := by
  have hfloor : ((0 : ℕ) : ℤ) = ⌊(1/2 : ℚ) * (((2 : ℕ) : ℚ) - 1)⌋ := by
    rw [show (1/2 : ℚ) * (((2 : ℕ) : ℚ) - 1) = 1/2 by norm_num]
    symm
    rw [Int.floor_eq_iff]
    norm_num
  have h := sampleElevation_bilinear ⟨2, 2, [some 1, some 2, some 3, some 4], none⟩
    (1/2) (1/2) (by norm_num) (by norm_num) (by norm_num) (by norm_num)
    (by decide) (by decide) 0 0 1 1 (1/2) (1/2)
    hfloor hfloor (by decide) (by decide)
    (by show (1/2 : ℚ) = 1/2 * (((2 : ℕ) : ℚ) - 1) - ((0 : ℕ) : ℚ); norm_num)
    (by show (1/2 : ℚ) = 1/2 * (((2 : ℕ) : ℚ) - 1) - ((0 : ℕ) : ℚ); norm_num)
  obtain ⟨q00, q10, q01, q11, e00, e10, e01, e11, hs⟩ := h.2 (by decide)
  have r00 : rawSample ⟨2, 2, [some 1, some 2, some 3, some 4], none⟩ 0 0 = some 1 := rfl
  have r10 : rawSample ⟨2, 2, [some 1, some 2, some 3, some 4], none⟩ 1 0 = some 2 := rfl
  have r01 : rawSample ⟨2, 2, [some 1, some 2, some 3, some 4], none⟩ 0 1 = some 3 := rfl
  have r11 : rawSample ⟨2, 2, [some 1, some 2, some 3, some 4], none⟩ 1 1 = some 4 := rfl
  have hq00 : q00 = 1 := Option.some.inj (e00.symm.trans r00)
  have hq10 : q10 = 2 := Option.some.inj (e10.symm.trans r10)
  have hq01 : q01 = 3 := Option.some.inj (e01.symm.trans r01)
  have hq11 : q11 = 4 := Option.some.inj (e11.symm.trans r11)
  subst hq00 hq10 hq01 hq11
  rw [hs]
  exact congrArg some (by norm_num)

/-- **C5.** For an all-finite marching-squares cell, the 4-bit case
code sets bit 3/2/1/0 exactly when the top-left / top-right /
bottom-right / bottom-left corner is `>= threshold`; codes 0 and 15
emit nothing; the 14 other non-saddle codes use the fixed
`MS_EDGE_TABLE` entry; the saddle codes 5 and 10 pick their edge
pairing by comparing the corner average with the threshold
(`[[3,0],[2,1]]` for code 5 when the center is inside, `[[0,1],[3,2]]`
for code 10 when inside, the complementary pairing otherwise). -/
theorem msCellEdges_spec (threshold tl tr br bl : ℚ) :
    (msCaseBits threshold tl tr br bl).testBit 3 = decide (threshold ≤ tl) ∧
    (msCaseBits threshold tl tr br bl).testBit 2 = decide (threshold ≤ tr) ∧
    (msCaseBits threshold tl tr br bl).testBit 1 = decide (threshold ≤ br) ∧
    (msCaseBits threshold tl tr br bl).testBit 0 = decide (threshold ≤ bl) ∧
    msCaseBits threshold tl tr br bl < 16 ∧
    (msCaseBits threshold tl tr br bl = 0 ∨ msCaseBits threshold tl tr br bl = 15 →
      msCellEdges threshold tl tr br bl = []) ∧
    (msCaseBits threshold tl tr br bl = 5 →
      msCellEdges threshold tl tr br bl =
        if threshold ≤ (tl + tr + br + bl) * (1/4) then [(3, 0), (2, 1)]
        else [(0, 1), (3, 2)]) ∧
    (msCaseBits threshold tl tr br bl = 10 →
      msCellEdges threshold tl tr br bl =
        if threshold ≤ (tl + tr + br + bl) * (1/4) then [(0, 1), (3, 2)]
        else [(3, 0), (2, 1)]) ∧
    (msCaseBits threshold tl tr br bl ≠ 0 → msCaseBits threshold tl tr br bl ≠ 5 →
     msCaseBits threshold tl tr br bl ≠ 10 → msCaseBits threshold tl tr br bl ≠ 15 →
      msCellEdges threshold tl tr br bl =
        (MS_EDGE_TABLE.getD (msCaseBits threshold tl tr br bl) none).getD []) := by
  by_cases h1 : threshold ≤ tl <;> by_cases h2 : threshold ≤ tr <;>
    by_cases h3 : threshold ≤ br <;> by_cases h4 : threshold ≤ bl <;>
    simp [msCaseBits, msCellEdges, MS_EDGE_TABLE, h1, h2, h3, h4] <;> decide

lemma filterTriangles_eq_filter (nd bl : ℕ → Bool) :
    ∀ l : List ℕ, trianglesOf (filterTriangles nd bl l) =
      (trianglesOf l).filter fun t =>
        !(nd t.1 || nd t.2.1 || nd t.2.2) && (bl t.1 || bl t.2.1 || bl t.2.2)
  | [] => rfl
  | [_] => rfl
  | [_, _] => rfl
  | i0 :: i1 :: i2 :: rest => by
    have ih := filterTriangles_eq_filter nd bl rest
    simp only [filterTriangles, trianglesOf, List.filter_cons]
    cases h0 : nd i0 <;> cases h1 : nd i1 <;> cases h2 : nd i2 <;>
      cases b0 : bl i0 <;> cases b1 : bl i1 <;> cases b2 : bl i2 <;>
      simp [h0, h1, h2, b0, b1, b2, ih, trianglesOf]

lemma filterTriangles_length_mod3 (nd bl : ℕ → Bool) :
    ∀ l : List ℕ, (filterTriangles nd bl l).length % 3 = 0
  | [] => rfl
  | [_] => rfl
  | [_, _] => rfl
  | i0 :: i1 :: i2 :: rest => by
    have ih := filterTriangles_length_mod3 nd bl rest
    simp only [filterTriangles, List.length_append]
    split_ifs <;> simp <;> omega

lemma filterTriangles_subset (nd bl : ℕ → Bool) :
    ∀ l : List ℕ, ∀ j ∈ filterTriangles nd bl l, j ∈ l
  | [] => by simp [filterTriangles]
  | [_] => by simp [filterTriangles]
  | [_, _] => by simp [filterTriangles]
  | i0 :: i1 :: i2 :: rest => by
    intro j hj
    have ih := filterTriangles_subset nd bl rest
    simp only [filterTriangles, List.mem_append] at hj
    rcases hj with hj | hj
    · split_ifs at hj <;> simp_all <;> tauto
    · simp [ih j hj]

/-- **C2.** Triangle filtering keeps exactly the triangles of the
original buffer with no NoData vertex and at least one vertex strictly
below the reference elevation, in original order; the output is a
triangle-respecting subsequence of the original, its length is a
multiple of 3, and (when the original indices are in range) every index
value is `< vertexCount`. -/
theorem filterAboveWater_spec (g : Grid) (referenceElevation : ℚ)
    (uvs : List (ℚ × ℚ)) (indices : List ℕ)
    (hidx : ∀ i ∈ indices, i < uvs.length) :
    (filterAboveWaterTriangles g referenceElevation uvs indices).length % 3 = 0 ∧
    trianglesOf (filterAboveWaterTriangles g referenceElevation uvs indices) =
      (trianglesOf indices).filter (fun t =>
        !(vertexIsNoData g (uvs.getD t.1 (0, 0))
            || vertexIsNoData g (uvs.getD t.2.1 (0, 0))
            || vertexIsNoData g (uvs.getD t.2.2 (0, 0)))
          && (vertexIsBelowRef g referenceElevation (uvs.getD t.1 (0, 0))
              || vertexIsBelowRef g referenceElevation (uvs.getD t.2.1 (0, 0))
              || vertexIsBelowRef g referenceElevation (uvs.getD t.2.2 (0, 0)))) ∧
    List.Sublist
      (trianglesOf (filterAboveWaterTriangles g referenceElevation uvs indices))
      (trianglesOf indices) ∧
    ∀ j ∈ filterAboveWaterTriangles g referenceElevation uvs indices,
      j < uvs.length := by
  refine ⟨filterTriangles_length_mod3 _ _ indices,
    filterTriangles_eq_filter _ _ indices, ?_, ?_⟩
  · rw [show trianglesOf (filterAboveWaterTriangles g referenceElevation uvs indices)
        = _ from filterTriangles_eq_filter _ _ indices]
    exact List.filter_sublist _
  · intro j hj
    exact hidx j (filterTriangles_subset _ _ indices j hj)

/-- Witness for C2 on a concrete 2×2 mesh over a concrete grid. -/
theorem filterAboveWater_spec_witness :
    List.Sublist (trianglesOf (filterAboveWaterTriangles
        ⟨2, 2, [some 0, some 5, some 0, some 5], none⟩ 3
        [((0:ℚ), (0:ℚ)), (1, 0), (0, 1), (1, 1)] [0, 1, 2, 1, 3, 2]))
      (trianglesOf [0, 1, 2, 1, 3, 2]) :=
  (filterAboveWater_spec ⟨2, 2, [some 0, some 5, some 0, some 5], none⟩ 3
    [((0:ℚ), (0:ℚ)), (1, 0), (0, 1), (1, 1)] [0, 1, 2, 1, 3, 2]
    (by decide)).2.2.1

lemma lerp_mem_unit (a b f : ℚ) (ha0 : 0 ≤ a) (ha1 : a ≤ 1) (hb0 : 0 ≤ b)
    (hb1 : b ≤ 1) (hf0 : 0 ≤ f) (hf1 : f ≤ 1) :
    0 ≤ a + (b - a) * f ∧ a + (b - a) * f ≤ 1 := by
  constructor <;> nlinarith

lemma List.getD_mem_of_lt {α : Type} (l : List α) (n : ℕ) (d : α)
    (h : n < l.length) : l.getD n d ∈ l := by
  rw [List.getD_eq_getElem l d h]
  exact List.getElem_mem h

lemma turbo_length : TURBO_COLORMAP.length = 256 := by
  unfold TURBO_COLORMAP
  rw [List.length_map, List.length_range]

lemma turbo_mem_unit : ∀ c ∈ TURBO_COLORMAP,
    0 ≤ c.1 ∧ c.1 ≤ 1 ∧ 0 ≤ c.2.1 ∧ c.2.1 ≤ 1 ∧ 0 ≤ c.2.2 ∧ c.2.2 ≤ 1 := by
  intro c hc
  simp only [TURBO_COLORMAP, List.mem_map] at hc
  obtain ⟨i, hi, rfl⟩ := hc
  rw [List.mem_range] at hi
  have h0 : (0 : ℚ) ≤ (i : ℚ) / 255 := div_nonneg (Nat.cast_nonneg i) (by norm_num)
  have hle : i ≤ 255 := by omega
  have h1 : (i : ℚ) / 255 ≤ 1 := by
    rw [div_le_one (by norm_num)]
    exact_mod_cast hle
  exact ⟨h0, h1, h0, h1, h0, h1⟩

lemma getColorForDepth_minDepth (table : List (ℚ × ℚ × ℚ)) (minDepth maxDepth : ℚ)
    (htab : table.length = 256) :
    getColorForDepth table minDepth minDepth maxDepth = table.getD 255 (0, 0, 0) := by
  simp only [getColorForDepth, htab, sub_self, zero_div]
  rw [show max (0 : ℚ) (min 1 0) = 0 by norm_num]
  rw [show (1 : ℚ) - 0 = 1 by norm_num]
  rw [show (1 : ℚ) * (((256 : ℕ) : ℚ) - 1) = ((255 : ℤ) : ℚ) by norm_num]
  rw [Int.floor_intCast, Int.ceil_intCast]
  norm_num [show Int.toNat 255 = 255 from rfl]

lemma getColorForDepth_maxDepth (table : List (ℚ × ℚ × ℚ)) (minDepth maxDepth : ℚ)
    (htab : table.length = 256) (hdr : minDepth < maxDepth) :
    getColorForDepth table maxDepth minDepth maxDepth = table.getD 0 (0, 0, 0) := by
  have hne : maxDepth - minDepth ≠ 0 := sub_ne_zero_of_ne hdr.ne'
  simp only [getColorForDepth, htab, div_self hne]
  rw [show max (0 : ℚ) (min 1 1) = 1 by norm_num]
  rw [show (1 : ℚ) - 1 = 0 by norm_num]
  rw [show (0 : ℚ) * (((256 : ℕ) : ℚ) - 1) = ((0 : ℤ) : ℚ) by norm_num]
  rw [Int.floor_intCast, Int.ceil_intCast]
  norm_num [show Int.toNat 0 = 0 from rfl]

lemma getColorForDepth_mem_unit (table : List (ℚ × ℚ × ℚ))
    (depth minDepth maxDepth : ℚ) (htab : table.length = 256)
    (hent : ∀ c ∈ table,
      0 ≤ c.1 ∧ c.1 ≤ 1 ∧ 0 ≤ c.2.1 ∧ c.2.1 ≤ 1 ∧ 0 ≤ c.2.2 ∧ c.2.2 ≤ 1) :
    0 ≤ (getColorForDepth table depth minDepth maxDepth).1 ∧
    (getColorForDepth table depth minDepth maxDepth).1 ≤ 1 ∧
    0 ≤ (getColorForDepth table depth minDepth maxDepth).2.1 ∧
    (getColorForDepth table depth minDepth maxDepth).2.1 ≤ 1 ∧
    0 ≤ (getColorForDepth table depth minDepth maxDepth).2.2 ∧
    (getColorForDepth table depth minDepth maxDepth).2.2 ≤ 1 := by
  simp only [getColorForDepth, htab]
  rw [show (((256 : ℕ) : ℚ) - 1) = 255 by norm_num]
  set n := (depth - minDepth) / (maxDepth - minDepth) with hn
  set cl := max 0 (min 1 n) with hcl
  have hcl0 : 0 ≤ cl := le_max_left 0 _
  have hcl1 : cl ≤ 1 := max_le (by norm_num) (min_le_left 1 n)
  set inv := 1 - cl with hinv
  have hv0 : 0 ≤ inv := by rw [hinv]; linarith
  have hv1 : inv ≤ 1 := by rw [hinv]; linarith
  set idx := inv * (255 : ℚ) with hidx
  have hidx0 : 0 ≤ idx := by rw [hidx]; positivity
  have hidxle : idx ≤ 255 := by
    rw [hidx]
    nlinarith
  have hfl0 : 0 ≤ ⌊idx⌋ := Int.floor_nonneg.mpr hidx0
  have hflle : ⌊idx⌋ ≤ 255 := by
    have := Int.floor_le_floor (α := ℚ) hidxle
    rwa [show ⌊(255 : ℚ)⌋ = 255 by
      rw [show (255 : ℚ) = ((255 : ℤ) : ℚ) by norm_num, Int.floor_intCast]] at this
  have hce0 : 0 ≤ ⌈idx⌉ := Int.ceil_nonneg hidx0
  have hcele : ⌈idx⌉ ≤ 255 := by
    rw [Int.ceil_le]
    rw [show ((255 : ℤ) : ℚ) = (255 : ℚ) by norm_num]
    exact hidxle
  have hfr0 : 0 ≤ idx - (⌊idx⌋ : ℚ) := sub_nonneg.mpr (Int.floor_le idx)
  have hfr1 : idx - (⌊idx⌋ : ℚ) ≤ 1 := by
    have := Int.lt_floor_add_one idx
    linarith
  have hLmem : table.getD ⌊idx⌋.toNat (0, 0, 0) ∈ table := by
    apply List.getD_mem_of_lt
    rw [htab]
    omega
  have hUmem : table.getD ⌈idx⌉.toNat (0, 0, 0) ∈ table := by
    apply List.getD_mem_of_lt
    rw [htab]
    omega
  obtain ⟨l1, l2, l3, l4, l5, l6⟩ := hent _ hLmem
  obtain ⟨u1, u2, u3, u4, u5, u6⟩ := hent _ hUmem
  refine ⟨?_, ?_, ?_, ?_, ?_, ?_⟩
  · exact (lerp_mem_unit _ _ _ l1 l2 u1 u2 hfr0 hfr1).1
  · exact (lerp_mem_unit _ _ _ l1 l2 u1 u2 hfr0 hfr1).2
  · exact (lerp_mem_unit _ _ _ l3 l4 u3 u4 hfr0 hfr1).1
  · exact (lerp_mem_unit _ _ _ l3 l4 u3 u4 hfr0 hfr1).2
  · exact (lerp_mem_unit _ _ _ l5 l6 u5 u6 hfr0 hfr1).1
  · exact (lerp_mem_unit _ _ _ l5 l6 u5 u6 hfr0 hfr1).2

/-- **C6.** Vertex coloring assigns flat neutral gray `(0.5, 0.5, 0.5)`
when the sample is NoData or `>= referenceElevation`; otherwise it
colors by `depth = referenceElevation − elevation` through
`_getColorForDepth`, where depth exactly at `minDepth` maps to colormap
entry 255, depth at `maxDepth` maps to entry 0, and every emitted
channel lies in `[0, 1]` (for any 256-entry table with channels in
`[0, 1]`, as the repository pins for `TURBO_COLORMAP`). -/
theorem vertexColor_spec (m : TerrainMesh) (table : List (ℚ × ℚ × ℚ)) (uv : ℚ × ℚ)
    (htab : table.length = 256)
    (hent : ∀ c ∈ table,
      0 ≤ c.1 ∧ c.1 ≤ 1 ∧ 0 ≤ c.2.1 ∧ c.2.1 ≤ 1 ∧ 0 ≤ c.2.2 ∧ c.2.2 ≤ 1)
    (hdr : m.minDepth < m.maxDepth) :
    (m.sampleElevation uv.1 (1 - uv.2) = none →
      vertexColor m table uv = (1/2, 1/2, 1/2)) ∧
    (∀ e : ℚ, m.sampleElevation uv.1 (1 - uv.2) = some e →
      m.referenceElevation ≤ e → vertexColor m table uv = (1/2, 1/2, 1/2)) ∧
    (∀ e : ℚ, m.sampleElevation uv.1 (1 - uv.2) = some e →
      e < m.referenceElevation → vertexColor m table uv =
        getColorForDepth table (m.referenceElevation - e) m.minDepth m.maxDepth) ∧
    getColorForDepth table m.minDepth m.minDepth m.maxDepth
      = table.getD 255 (0, 0, 0) ∧
    getColorForDepth table m.maxDepth m.minDepth m.maxDepth
      = table.getD 0 (0, 0, 0) ∧
    ∀ depth : ℚ,
      0 ≤ (getColorForDepth table depth m.minDepth m.maxDepth).1 ∧
      (getColorForDepth table depth m.minDepth m.maxDepth).1 ≤ 1 ∧
      0 ≤ (getColorForDepth table depth m.minDepth m.maxDepth).2.1 ∧
      (getColorForDepth table depth m.minDepth m.maxDepth).2.1 ≤ 1 ∧
      0 ≤ (getColorForDepth table depth m.minDepth m.maxDepth).2.2 ∧
      (getColorForDepth table depth m.minDepth m.maxDepth).2.2 ≤ 1 := by
  refine ⟨?_, ?_, ?_, getColorForDepth_minDepth table _ _ htab,
    getColorForDepth_maxDepth table _ _ htab hdr,
    fun depth => getColorForDepth_mem_unit table depth _ _ htab hent⟩
  · intro h
    simp [vertexColor, h]
  · intro e he hge
    simp [vertexColor, he, if_pos hge]
  · intro e he hlt
    simp [vertexColor, he, not_le.mpr hlt]

/-- Witness for C6 with the modelled `TURBO_COLORMAP` table and a
concrete mesh configuration. -/
theorem vertexColor_spec_witness :
    getColorForDepth TURBO_COLORMAP 0 0 31 = TURBO_COLORMAP.getD 255 (0, 0, 0) :=
  (vertexColor_spec
    ⟨some ⟨2, 2, [some 1, some 2, some 3, some 4], none⟩, 10, 0, 31, 4, 1, 1, 1, 2, 2⟩
    TURBO_COLORMAP (0, 0) turbo_length turbo_mem_unit (by decide)).2.2.2.1

/-- **C7 counterexample.** Douglas-Peucker with tolerance `0` is not
the identity: on three exactly-collinear points the interior maximum
distance is `0`, which is not `> tolSq = 0`, so the polyline collapses
to its two endpoints. -/
theorem simplifyPolyline_tol0_counterexample :
    simplifyPolyline2D [((0:ℚ), (0:ℚ)), (1, 0), (2, 0)] 0
        = [((0:ℚ), (0:ℚ)), (2, 0)] ∧
      simplifyPolyline2D [((0:ℚ), (0:ℚ)), (1, 0), (2, 0)] 0
        ≠ [((0:ℚ), (0:ℚ)), (1, 0), (2, 0)] := by
  with_unfolding_all decide

lemma dpScanGo_fst_ge_acc (first lastPt : ℚ × ℚ) (points : List (ℚ × ℚ)) :
    ∀ (l : List ℕ) (acc : ℚ × ℕ),
      acc.1 ≤ (dpScanGo first lastPt points l acc).1
  | [], _ => le_refl _
  | i :: l, acc => by
    have ih := dpScanGo_fst_ge_acc first lastPt points l
      (if acc.1 < perpDistSq first lastPt (points.getD i (0, 0))
       then (perpDistSq first lastPt (points.getD i (0, 0)), i) else acc)
    simp only [dpScanGo, List.foldl_cons] at ih ⊢
    refine le_trans ?_ ih
    split_ifs with h
    · exact le_of_lt h
    · exact le_refl _

lemma dpScanGo_fst_ge_mem (first lastPt : ℚ × ℚ) (points : List (ℚ × ℚ)) :
    ∀ (l : List ℕ) (acc : ℚ × ℕ) (i : ℕ), i ∈ l →
      perpDistSq first lastPt (points.getD i (0, 0))
        ≤ (dpScanGo first lastPt points l acc).1
  | j :: l, acc, i, hi => by
    rcases List.mem_cons.mp hi with rfl | hi
    · simp only [dpScanGo, List.foldl_cons]
      have hge := dpScanGo_fst_ge_acc first lastPt points l
        (if acc.1 < perpDistSq first lastPt (points.getD i (0, 0))
         then (perpDistSq first lastPt (points.getD i (0, 0)), i) else acc)
      simp only [dpScanGo] at hge
      refine le_trans ?_ hge
      split_ifs with h
      · exact le_refl _
      · exact le_of_not_lt h
    · simp only [dpScanGo, List.foldl_cons]
      exact dpScanGo_fst_ge_mem first lastPt points l _ i hi

lemma dpScanGo_snd_bound (first lastPt : ℚ × ℚ) (points : List (ℚ × ℚ)) (B : ℕ) :
    ∀ (l : List ℕ) (acc : ℚ × ℕ),
      (∀ i ∈ l, 1 ≤ i ∧ i ≤ B) → (0 < acc.1 → 1 ≤ acc.2 ∧ acc.2 ≤ B) →
      0 < (dpScanGo first lastPt points l acc).1 →
      1 ≤ (dpScanGo first lastPt points l acc).2 ∧
        (dpScanGo first lastPt points l acc).2 ≤ B
  | [], acc, _, hacc, hpos => hacc hpos
  | j :: l, acc, hl, hacc, hpos => by
    simp only [dpScanGo, List.foldl_cons] at hpos ⊢
    refine dpScanGo_snd_bound first lastPt points B l _
      (fun i hi => hl i (List.mem_cons_of_mem j hi)) ?_ hpos
    intro hpos'
    split_ifs at hpos' ⊢ with h
    · exact hl j (List.mem_cons_self j l)
    · exact hacc hpos'

lemma perpDistSq_pos (first lastPt p : ℚ × ℚ) (hne : p ≠ first)
    (hcross : cross2 first p lastPt ≠ 0) : 0 < perpDistSq first lastPt p := by
  have hsq : ∀ a b : ℚ, (a ≠ 0 ∨ b ≠ 0) → 0 < a * a + b * b := by
    intro a b hab
    rcases hab with h | h
    · nlinarith [mul_self_pos.mpr h, mul_self_nonneg b]
    · nlinarith [mul_self_pos.mpr h, mul_self_nonneg a]
  simp only [perpDistSq]
  split_ifs with hsmall
  · apply hsq
    by_contra hc
    push_neg at hc
    exact hne (Prod.ext (by linarith [hc.1]) (by linarith [hc.2]))
  · apply hsq
    by_contra hc
    push_neg at hc
    apply hcross
    have key : (p.1 - first.1
          - (((p.1 - first.1) * (lastPt.1 - first.1)
              + (p.2 - first.2) * (lastPt.2 - first.2))
            * (1 / ((lastPt.1 - first.1) * (lastPt.1 - first.1)
                + (lastPt.2 - first.2) * (lastPt.2 - first.2))))
            * (lastPt.1 - first.1)) * (lastPt.2 - first.2)
        - (p.2 - first.2
          - (((p.1 - first.1) * (lastPt.1 - first.1)
              + (p.2 - first.2) * (lastPt.2 - first.2))
            * (1 / ((lastPt.1 - first.1) * (lastPt.1 - first.1)
                + (lastPt.2 - first.2) * (lastPt.2 - first.2))))
            * (lastPt.2 - first.2)) * (lastPt.1 - first.1)
        = cross2 first p lastPt := by
      unfold cross2
      ring
    rw [← key, hc.1, hc.2]
    ring

lemma getLastD_mem_of_ne_nil {α : Type} (l : List α) (d : α) (h : l ≠ []) :
    l.getLastD d ∈ l := by
  rw [List.getLastD_eq_getLast?, List.getLast?_eq_getLast l h]
  exact List.getLast_mem h

lemma simplifyAux_tol0_id : ∀ (n fuel : ℕ) (points : List (ℚ × ℚ)),
    points.length ≤ n → points.length ≤ fuel →
    (∀ a b c : ℚ × ℚ, List.Sublist [a, b, c] points → cross2 a b c ≠ 0) →
    simplifyAux fuel points 0 = points := by
  intro n
  induction n with
  | zero =>
    intro fuel points hn _ _
    rw [List.length_eq_zero.mp (Nat.le_zero.mp hn)]
    cases fuel <;> rfl
  | succ n ih =>
    intro fuel points hn hfuel hgen
    rcases fuel with _ | fuel
    · rw [List.length_eq_zero.mp (Nat.le_zero.mp hfuel)]
      rfl
    · by_cases hlen : points.length ≤ 2
      · simp [simplifyAux, hlen]
      · push_neg at hlen
        rcases hp : points with _ | ⟨a, _ | ⟨b, l⟩⟩ <;> rw [hp] at hlen <;>
          try simp at hlen
        subst hp
        have hlnil : l ≠ [] := by
          intro h
          rw [h] at hlen
          simp at hlen
        -- the three key points
        have hhead : (a :: b :: l).headD (0, 0) = a := rfl
        have hget1 : (a :: b :: l).getD 1 (0, 0) = b := rfl
        have hlast : (a :: b :: l).getLastD (0, 0) = l.getLastD b := by
          rw [List.getLastD_cons, List.getLastD_cons]
        have hsub : List.Sublist [a, b, l.getLastD b] (a :: b :: l) := by
          refine List.Sublist.cons₂ a (List.Sublist.cons₂ b ?_)
          exact List.singleton_sublist.mpr (getLastD_mem_of_ne_nil l b hlnil)
        have hcross : cross2 a b (l.getLastD b) ≠ 0 := hgen _ _ _ hsub
        have hne : b ≠ a := by
          intro hba
          apply hgen a b (l.getLastD b) hsub
          rw [hba]
          unfold cross2
          ring
        have hpos : 0 < perpDistSq a (l.getLastD b) b :=
          perpDistSq_pos _ _ _ hne hcross
        have hpos' : 0 < perpDistSq ((a :: b :: l).headD (0, 0))
            ((a :: b :: l).getLastD (0, 0)) ((a :: b :: l).getD 1 (0, 0)) := by
          rw [hhead, hget1, hlast]
          exact hpos
        -- scan facts
        have h1mem : 1 ∈ List.range' 1 ((a :: b :: l).length - 2) := by
          rw [List.mem_range']
          exact ⟨0, by simp; omega, by omega⟩
        have hfst : perpDistSq ((a :: b :: l).headD (0, 0))
            ((a :: b :: l).getLastD (0, 0)) ((a :: b :: l).getD 1 (0, 0))
              ≤ (dpScan (a :: b :: l)).1 := by
          simp only [dpScan]
          exact dpScanGo_fst_ge_mem _ _ _ _ _ 1 h1mem
        have hscanpos : 0 < (dpScan (a :: b :: l)).1 := lt_of_lt_of_le hpos' hfst
        have hbounds : 1 ≤ (dpScan (a :: b :: l)).2 ∧
            (dpScan (a :: b :: l)).2 ≤ (a :: b :: l).length - 2 := by
          simp only [dpScan]
          refine dpScanGo_snd_bound _ _ _ _ _ _ ?_ ?_ ?_
          · intro i hi
            rw [List.mem_range'] at hi
            obtain ⟨k, hk, rfl⟩ := hi
            omega
          · intro h
            exact absurd h (lt_irrefl 0)
          · simpa only [dpScan] using hscanpos
        set K := (dpScan (a :: b :: l)).2 with hK
        -- unfold one recursion step
        simp only [simplifyAux]
        rw [if_neg (by omega : ¬(a :: b :: l).length ≤ 2)]
        rw [if_pos (by simpa using hscanpos : (0:ℚ) * 0 < (dpScan (a :: b :: l)).1)]
        have hlen3 : 3 ≤ (a :: b :: l).length := by simp; omega
        have htake : simplifyAux fuel ((a :: b :: l).take (K + 1)) 0
            = (a :: b :: l).take (K + 1) := by
          refine ih fuel ((a :: b :: l).take (K + 1)) ?_ ?_ ?_
          · rw [List.length_take]
            omega
          · rw [List.length_take]
            omega
          · intro x y z hxyz
            exact hgen x y z (hxyz.trans (List.take_sublist _ _))
        have hdrop : simplifyAux fuel ((a :: b :: l).drop K) 0
            = (a :: b :: l).drop K := by
          refine ih fuel ((a :: b :: l).drop K) ?_ ?_ ?_
          · rw [List.length_drop]
            omega
          · rw [List.length_drop]
            omega
          · intro x y z hxyz
            exact hgen x y z (hxyz.trans (List.drop_sublist _ _))
        rw [htake, hdrop]
        have hdl : ((a :: b :: l).take (K + 1)).dropLast = (a :: b :: l).take K := by
          rw [List.dropLast_eq_take, List.length_take, List.take_take]
          congr 1
          omega
        rw [hdl, List.take_append_drop]

/-- **C7 (amended).** Douglas-Peucker with tolerance `0` is the
identity on every polyline in which no three points (as a 3-element
subsequence) are exactly collinear; exactly-collinear interior points
are removed even at tolerance `0` (see the counterexample), so it is
not the identity in general. -/
theorem simplifyPolyline_tol0_identity (points : List (ℚ × ℚ))
    (hgen : ∀ a b c : ℚ × ℚ, List.Sublist [a, b, c] points → cross2 a b c ≠ 0) :
    simplifyPolyline2D points 0 = points :=
  simplifyAux_tol0_id points.length points.length points (le_refl _) (le_refl _) hgen

/-- Witness for C7 on a concrete non-collinear 3-point polyline. -/
theorem simplifyPolyline_tol0_identity_witness :
    simplifyPolyline2D [((0:ℚ), (0:ℚ)), (1, 1), (2, 0)] 0
      = [((0:ℚ), (0:ℚ)), (1, 1), (2, 0)] := by
  apply simplifyPolyline_tol0_identity
  intro a b c h
  have hl : [a, b, c] = [((0:ℚ), (0:ℚ)), (1, 1), (2, 0)] :=
    List.Sublist.eq_of_length h rfl
  simp only [List.cons.injEq, List.nil_eq] at hl
  obtain ⟨ha, hb, hc, -⟩ := hl
  subst ha hb hc
  unfold cross2
  norm_num

lemma contourLoop_cons (chunkOf : ℚ → List ℚ) (simplifyOf : ℚ → List ℚ → List ℚ)
    (tol : ℚ) (maxV : ℕ) (t : ℚ) (rest : List ℚ) (chunks : List (List ℚ))
    (total : ℕ) :
    ∃ chunks2, contourLoop chunkOf simplifyOf tol maxV (t :: rest) chunks total =
      if 0 < maxV ∧ maxV < total + perThresholdVerts chunkOf simplifyOf tol t
      then (chunks2, total + perThresholdVerts chunkOf simplifyOf tol t, true)
      else contourLoop chunkOf simplifyOf tol maxV rest chunks2
            (total + perThresholdVerts chunkOf simplifyOf tol t) := by
  refine ⟨if 0 < (chunkOf t).length then
      chunks ++ [if 0 < tol then simplifyOf t (chunkOf t) else chunkOf t]
    else chunks, ?_⟩
  simp only [contourLoop, perThresholdVerts]
  by_cases h1 : 0 < (chunkOf t).length
  · by_cases h2 : 0 < tol <;> simp [h1, h2]
  · simp [h1]

lemma contourLoop_spec (chunkOf : ℚ → List ℚ) (simplifyOf : ℚ → List ℚ → List ℚ)
    (tol : ℚ) (maxV : ℕ) :
    ∀ (l : List ℚ) (chunks : List (List ℚ)) (total : ℕ),
      (0 < maxV → total ≤ maxV) →
      ((contourLoop chunkOf simplifyOf tol maxV l chunks total).2.2 = true ↔
        0 < maxV ∧ ∃ n ≤ l.length, maxV < total
          + ((l.take n).map (perThresholdVerts chunkOf simplifyOf tol)).sum) ∧
      ((contourLoop chunkOf simplifyOf tol maxV l chunks total).2.2 = true →
        ∃ k < l.length,
          (contourLoop chunkOf simplifyOf tol maxV l chunks total).2.1
            = total + ((l.take (k+1)).map (perThresholdVerts chunkOf simplifyOf tol)).sum ∧
          maxV < (contourLoop chunkOf simplifyOf tol maxV l chunks total).2.1 ∧
          ∀ j ≤ k, total
            + ((l.take j).map (perThresholdVerts chunkOf simplifyOf tol)).sum ≤ maxV) ∧
      ((contourLoop chunkOf simplifyOf tol maxV l chunks total).2.2 = false →
        (contourLoop chunkOf simplifyOf tol maxV l chunks total).2.1
          = total + (l.map (perThresholdVerts chunkOf simplifyOf tol)).sum) := by
  intro l
  induction l with
  | nil =>
    intro chunks total hInv
    refine ⟨?_, ?_, ?_⟩
    · simp only [contourLoop]
      constructor
      · intro h
        exact absurd h (by simp)
      · rintro ⟨hmv, n, hn, hlt⟩
        simp only [List.length_nil, Nat.le_zero] at hn
        subst hn
        simp only [List.take_nil, List.map_nil, List.sum_nil, Nat.add_zero] at hlt
        have := hInv hmv
        omega
    · intro h
      exact absurd h (by simp [contourLoop])
    · intro _
      simp [contourLoop]
  | cons t rest ih =>
    intro chunks total hInv
    have hlc : (t :: rest).length = rest.length + 1 := List.length_cons t rest
    obtain ⟨chunks2, hcons⟩ := contourLoop_cons chunkOf simplifyOf tol maxV t rest chunks total
    rw [hcons]
    by_cases habort : 0 < maxV ∧ maxV < total + perThresholdVerts chunkOf simplifyOf tol t
    · rw [if_pos habort]
      refine ⟨?_, ?_, ?_⟩
      · constructor
        · intro _
          refine ⟨habort.1, 1, by omega, ?_⟩
          have h1 : ((t :: rest).take 1).map (perThresholdVerts chunkOf simplifyOf tol)
              = [perThresholdVerts chunkOf simplifyOf tol t] := rfl
          rw [h1, List.sum_cons, List.sum_nil]
          omega
        · intro _
          rfl
      · intro _
        refine ⟨0, by omega, ?_, habort.2, ?_⟩
        · have h1 : ((t :: rest).take (0 + 1)).map (perThresholdVerts chunkOf simplifyOf tol)
              = [perThresholdVerts chunkOf simplifyOf tol t] := rfl
          rw [h1, List.sum_cons, List.sum_nil]
          simp
        intro j hj
        simp only [Nat.le_zero] at hj
        subst hj
        simp only [List.take_zero, List.map_nil, List.sum_nil, Nat.add_zero]
        exact hInv habort.1
      · intro h
        exact absurd h (by simp)
    · rw [if_neg habort]
      have hInv2 : 0 < maxV → total + perThresholdVerts chunkOf simplifyOf tol t ≤ maxV := by
        intro hmv
        rcases Nat.lt_or_ge maxV (total + perThresholdVerts chunkOf simplifyOf tol t) with h | h
        · exact absurd ⟨hmv, h⟩ habort
        · exact h
      obtain ⟨ihA, ihB, ihC⟩ := ih chunks2 (total + perThresholdVerts chunkOf simplifyOf tol t) hInv2
      refine ⟨?_, ?_, ?_⟩
      · rw [ihA]
        constructor
        · rintro ⟨hmv, n, hn, hlt⟩
          refine ⟨hmv, n + 1, by omega, ?_⟩
          simp only [List.take_succ_cons, List.map_cons, List.sum_cons]
          omega
        · rintro ⟨hmv, n, hn, hlt⟩
          rcases n with _ | m
          · simp only [List.take_zero, List.map_nil, List.sum_nil, Nat.add_zero] at hlt
            have := hInv hmv
            omega
          · refine ⟨hmv, m, by omega, ?_⟩
            simp only [List.take_succ_cons, List.map_cons, List.sum_cons] at hlt
            omega
      · intro hab
        obtain ⟨k, hk, hval, hgt, hprefix⟩ := ihB hab
        have hmv : 0 < maxV := (ihA.mp hab).1
        refine ⟨k + 1, by omega, ?_, hgt, ?_⟩
        · rw [hval]
          simp only [List.take_succ_cons, List.map_cons, List.sum_cons]
          omega
        · intro j hj
          rcases j with _ | j'
          · simp only [List.take_zero, List.map_nil, List.sum_nil, Nat.add_zero]
            exact hInv hmv
          · have := hprefix j' (by omega)
            simp only [List.take_succ_cons, List.map_cons, List.sum_cons]
            omega
      · intro hff
        rw [ihC hff]
        simp only [List.map_cons, List.sum_cons]
        omega

/-- **C3 (amended).** `generateContours` aborts exactly when the
running vertex total first exceeds a positive `maxVertices`, checking
only between thresholds: on abort, `aborted = true`, no further
threshold contributes, `vertexCount` is exactly the total of the
completed thresholds (a whole-threshold prefix whose proper prefixes
are all within budget) — but `segments` is returned *empty* rather
than reflecting the completed work. -/
theorem generateContours_abort_spec (sqrtFn : ℚ → ℚ) (m : TerrainMesh) (g : Grid)
    (referenceElevation minElevation interval heightOffset tol : ℚ) (maxV : ℕ)
    (r : ContourResult) (hg : m.grid = some g)
    (hres : generateContours sqrtFn m referenceElevation minElevation interval
      heightOffset tol maxV = some r) :
    (r.aborted = true ↔ 0 < maxV ∧
      ∃ n ≤ (contourThresholds referenceElevation minElevation interval).length,
        maxV < prefixVertexTotal
          (contourRawChunk sqrtFn m g referenceElevation heightOffset)
          (fun threshold chunkData => chainAndSimplifySegments chunkData
            (contourYFor m referenceElevation threshold) tol)
          tol (contourThresholds referenceElevation minElevation interval) n) ∧
    (r.aborted = true → r.segments = [] ∧
      ∃ k < (contourThresholds referenceElevation minElevation interval).length,
        r.vertexCount = prefixVertexTotal
          (contourRawChunk sqrtFn m g referenceElevation heightOffset)
          (fun threshold chunkData => chainAndSimplifySegments chunkData
            (contourYFor m referenceElevation threshold) tol)
          tol (contourThresholds referenceElevation minElevation interval) (k + 1) ∧
        maxV < r.vertexCount ∧
        ∀ j ≤ k, prefixVertexTotal
          (contourRawChunk sqrtFn m g referenceElevation heightOffset)
          (fun threshold chunkData => chainAndSimplifySegments chunkData
            (contourYFor m referenceElevation threshold) tol)
          tol (contourThresholds referenceElevation minElevation interval) j ≤ maxV) := by
  simp only [generateContours, hg] at hres
  by_cases hwz : m.gridWidth = 0 ∨ m.gridHeight = 0
  · rw [if_pos hwz] at hres
    exact absurd hres (by simp)
  · rw [if_neg hwz] at hres
    by_cases hthr : (contourThresholds referenceElevation minElevation interval).length = 0
    · rw [if_pos hthr] at hres
      obtain rfl := Option.some.inj hres
      constructor
      · constructor
        · intro h
          exact absurd h (by simp)
        · rintro ⟨hmv, n, hn, hlt⟩
          rw [hthr] at hn
          simp only [Nat.le_zero] at hn
          subst hn
          simp [prefixVertexTotal] at hlt
      · intro h
        exact absurd h (by simp)
    · rw [if_neg hthr] at hres
      obtain ⟨hA, hB, hC⟩ := contourLoop_spec
        (contourRawChunk sqrtFn m g referenceElevation heightOffset)
        (fun threshold chunkData => chainAndSimplifySegments chunkData
          (contourYFor m referenceElevation threshold) tol)
        tol maxV (contourThresholds referenceElevation minElevation interval) [] 0
        (fun _ => Nat.zero_le maxV)
      by_cases hab : (contourLoop
          (contourRawChunk sqrtFn m g referenceElevation heightOffset)
          (fun threshold chunkData => chainAndSimplifySegments chunkData
            (contourYFor m referenceElevation threshold) tol)
          tol maxV (contourThresholds referenceElevation minElevation interval)
          [] 0).2.2 = true
      · rw [if_pos hab] at hres
        obtain rfl := Option.some.inj hres
        constructor
        · constructor
          · intro _
            obtain ⟨hmv, n, hn, hlt⟩ := hA.mp hab
            exact ⟨hmv, n, hn, by simpa [prefixVertexTotal] using hlt⟩
          · intro _
            rfl
        · intro _
          refine ⟨rfl, ?_⟩
          obtain ⟨k, hk, hval, hgt, hpre⟩ := hB hab
          refine ⟨k, hk, by simpa [prefixVertexTotal] using hval, hgt, ?_⟩
          intro j hj
          simpa [prefixVertexTotal] using hpre j hj
      · rw [if_neg hab] at hres
        obtain rfl := Option.some.inj hres
        constructor
        · constructor
          · intro h
            exact absurd h (by simp)
          · rintro ⟨hmv, n, hn, hlt⟩
            exact absurd (hA.mpr ⟨hmv, n, hn, by simpa [prefixVertexTotal] using hlt⟩) hab
        · intro h
          exact absurd h (by simp)

/-- **C3 counterexample.** A concrete run that aborts after its first
threshold: the result reports `aborted = true` and `vertexCount = 2`
(the two vertices emitted by the completed threshold), yet `segments`
is the empty array — it does not reflect the work completed up to the
abort point (that would be `3 · 2 = 6` floats). -/
theorem generateContours_abort_counterexample :
    generateContours (fun _ => 1)
        ⟨some ⟨2, 2, [some 0, some 0, some 10, some 10], none⟩,
          10, 0, 31, 1, 1, 1, 1, 2, 2⟩ 10 0 5 0 0 1
      = some ⟨[], 2, true⟩ ∧ ¬(([] : List ℚ).length = 3 * 2) := by
  constructor
  · with_unfolding_all decide
  · decide

/-- Witness for C3 at the same concrete aborting run. -/
theorem generateContours_abort_spec_witness :
    0 < 1 ∧ ∃ n ≤ (contourThresholds 10 0 5).length,
      1 < prefixVertexTotal
        (contourRawChunk (fun _ => 1)
          ⟨some ⟨2, 2, [some 0, some 0, some 10, some 10], none⟩,
            10, 0, 31, 1, 1, 1, 1, 2, 2⟩
          ⟨2, 2, [some 0, some 0, some 10, some 10], none⟩ 10 0)
        (fun threshold chunkData => chainAndSimplifySegments chunkData
          (contourYFor ⟨some ⟨2, 2, [some 0, some 0, some 10, some 10], none⟩,
            10, 0, 31, 1, 1, 1, 1, 2, 2⟩ 10 threshold) 0)
        0 (contourThresholds 10 0 5) n :=
  ((generateContours_abort_spec (fun _ => 1)
    ⟨some ⟨2, 2, [some 0, some 0, some 10, some 10], none⟩, 10, 0, 31, 1, 1, 1, 1, 2, 2⟩
    ⟨2, 2, [some 0, some 0, some 10, some 10], none⟩ 10 0 5 0 0 1 ⟨[], 2, true⟩
    rfl (by with_unfolding_all decide)).1).mp rfl
